import Mathlib

/-!
# Verification of the `swarm` multi-agent orchestrator

Shallow embedding, in Lean 4, of the parts of `src/swarm.ts`, `src/utils.ts`
and `src/agent.ts` that the specification's claims are about:

* the shared-context merge (JavaScript object spread `{...c, ...u}`), used by
  `Swarm.updateContext`, `handleUpdatesAndOverrides`, the function-tool wrapper
  in `Swarm.wrapTools`, and the handover branches of `generateText`/`streamText`;
* the handover-processing block of the turn loop (`swarm.ts` lines 202-262 and
  488-577);
* the turn loop's budget accounting (`do ... while` over the count of assistant
  messages in `responseMessages`);
* the stream multiplexer `createStitchableStream` of `utils.ts`;
* the full-stream assembly and `toDataStream` protocol encoder of
  `Swarm.streamText`;
* the message-history persistence of `generateText` and `streamText`.

JavaScript objects whose keys carry JSON values are modelled as partial maps
`String → Option JValue`; `none` stands for an absent key (or `undefined`),
`some JValue.null` for a key explicitly present with value `null`.
-/

/-- JSON values, as far as the claims need them. -/
inductive JValue where
  | null : JValue
  | bool : Bool → JValue
  | num : Int → JValue
  | str : String → JValue
  deriving DecidableEq, Repr

/-- A JavaScript object / the swarm context: a partial map from keys to JSON
values. `none` models an absent key, `some JValue.null` a key explicitly set
to `null`. -/
def Ctx : Type := String → Option JValue

/-- The empty object `{}`. -/
def Ctx.empty : Ctx := fun _ => none

/-- JavaScript object spread `{...c, ...u}`: keys of `u` override keys of `c`;
keys absent from `u` are taken from `c`. This is the merge performed by
`Swarm.updateContext` (swarm.ts lines 862-868), `handleUpdatesAndOverrides`
(lines 886-891), the function-tool wrapper (lines 934-938), and the handover
context update (lines 220-224 and 511-515). -/
def Ctx.spread (c u : Ctx) : Ctx := fun k =>
  match u k with
  | some v => some v
  | none => c k

/-- Build a concrete object from an association list (later entries override
earlier ones, as in a JavaScript object literal). -/
def Ctx.ofList (l : List (String × JValue)) : Ctx := fun k =>
  (l.reverse.find? (fun kv => kv.1 = k)).map (·.2)

/-- An agent, as far as the orchestrator's state transitions see it: the
`uuid` generated at construction (agent.ts line 30) and the `name`. -/
structure Agent where
  uuid : String
  name : String
  deriving DecidableEq, Repr

/-- The result of a handover tool's `execute`: the next active agent, and an
optional partial context update (`AgentHandoverTool` return shape). `none`
models an absent / `undefined` `context` field. -/
structure HandoverResult where
  agent : Agent
  context : Option Ctx

/-- The mutable orchestrator state the handover branch touches:
`this._activeAgent` and `this.context`. -/
structure SwarmCore where
  activeAgent : Agent
  context : Ctx

/-- Embedding of swarm.ts lines 219-224 (identically 510-515): replace the
active agent with the executor's returned agent, and merge the returned
context update into the context if and only if one was returned
(`if (result.context) this.context = {...this.context, ...result.context}`). -/
def applyHandoverResult (s : SwarmCore) (result : HandoverResult) : SwarmCore :=
  { activeAgent := result.agent
    context :=
      match result.context with
      | some u => s.context.spread u
      | none => s.context }

/-- Embedding of the argument object the orchestrator passes to a handover
executor: `{...handoverCalls[0].args, ...this.context}` (swarm.ts lines
210-213, identically 501-504) — model args spread first, current context
second. -/
def handoverExecutorArgs (args ctx : Ctx) : Ctx := args.spread ctx

/-- Embedding of `Swarm.updateContext` (swarm.ts lines 862-868):
`this.context = {...this.context, ...update}`. -/
def Swarm.updateContext (s : SwarmCore) (update : Ctx) : SwarmCore :=
  { s with context := s.context.spread update }

/-- The test whether a key is present in an update object. -/
def Ctx.mem (u : Ctx) (k : String) : Prop := u k ≠ none

instance (u : Ctx) (k : String) : Decidable (u.mem k) := by
  unfold Ctx.mem; infer_instance

/-- C2. The shallow merge performed by `updateContext` (and identically by the
invocation-options merge, the function-tool context update and the handover
context update, all of which compute `{...this.context, ...u}` via
`Ctx.spread`): the merged context agrees with the old context on every key not
present in the update, agrees with the update on every key present in the
update, and a key explicitly set to `null` stays present with value `null`. -/
theorem updateContext_merge_spec (s : SwarmCore) (u : Ctx) (k : String) :
    (u k = none → (Swarm.updateContext s u).context k = s.context k) ∧
    (∀ v, u k = some v → (Swarm.updateContext s u).context k = some v) ∧
    (u k = some JValue.null → (Swarm.updateContext s u).context k = some JValue.null ∧
      (Swarm.updateContext s u).context.mem k) := by
  refine ⟨fun h => ?_, fun v h => ?_, fun h => ⟨?_, ?_⟩⟩ <;>
    simp [Swarm.updateContext, Ctx.spread, Ctx.mem, h]

/-- Witness for `updateContext_merge_spec` at a concrete state and update:
context `(a := 1, b := 2)` updated with `(b := null, c := 3)`. -/
theorem updateContext_merge_spec_witness :
    letI s : SwarmCore := ⟨⟨"u", "queen"⟩, Ctx.ofList [("a", .num 1), ("b", .num 2)]⟩
    letI u : Ctx := Ctx.ofList [("b", .null), ("c", .num 3)]
    ((Swarm.updateContext s u).context "a" = some (.num 1)) ∧
    ((Swarm.updateContext s u).context "c" = some (.num 3)) ∧
    ((Swarm.updateContext s u).context "b" = some .null) := by
  refine ⟨(updateContext_merge_spec _ _ "a").1 (by decide),
          (updateContext_merge_spec _ _ "c").2.1 _ (by decide),
          ((updateContext_merge_spec _ _ "b").2.2 (by decide)).1⟩

/-- C9. The argument object the orchestrator hands to a handover executor is
`{...modelArgs, ...context}`: for any key present in the current context, the
executor sees the context's value for that key — a colliding model-generated
value for the same key is shadowed. -/
theorem handoverExecutorArgs_context_shadows (args ctx : Ctx) (k : String)
    (v : JValue) (h : ctx k = some v) :
    handoverExecutorArgs args ctx k = some v := by
  simp [handoverExecutorArgs, Ctx.spread, h]

/-- Witness for `handoverExecutorArgs_context_shadows`: the model generates
`topic := "llm-guess"` but the context holds `topic := "weather"`; the
executor receives `"weather"`. -/
theorem handoverExecutorArgs_context_shadows_witness :
    handoverExecutorArgs (Ctx.ofList [("topic", .str "llm-guess")])
      (Ctx.ofList [("topic", .str "weather")]) "topic" = some (.str "weather") :=
  handoverExecutorArgs_context_shadows _ _ "topic" (.str "weather") (by decide)

/-! ## Transcript messages and the handover-processing block of the turn loop -/

/-- The discriminator `type` of an agent tool (`AgentTool`): `"function"` or
`"handover"`. -/
inductive ToolKind where
  | function : ToolKind
  | handover : ToolKind
  deriving DecidableEq, Repr, BEq

/-- A model-generated tool call, with its arguments as a concrete JSON
object (association list; later entries override earlier ones). -/
structure ModelToolCall where
  toolCallId : String
  toolName : String
  args : List (String × JValue)
  deriving DecidableEq, Repr

/-- One `tool-result` part of a tool-role message. -/
structure ToolResultPart where
  toolCallId : String
  toolName : String
  result : String
  deriving DecidableEq, Repr

/-- A part of an assistant message's array-form content. -/
inductive AsstPart where
  | text : String → AsstPart
  | toolCall : ModelToolCall → AsstPart
  deriving DecidableEq, Repr

/-- Assistant message content: either a plain string or an array of parts
(the `typeof assistantMessage.content !== "string"` distinction at swarm.ts
line 252). -/
inductive AsstContent where
  | str : String → AsstContent
  | parts : List AsstPart → AsstContent
  deriving DecidableEq, Repr

/-- A `SwarmMessage` of the transcript. -/
inductive SwarmMsg where
  | assistant (sender : String) (content : AsstContent)
  | user (content : String)
  | tool (content : List ToolResultPart)
  | system (content : String)
  deriving DecidableEq, Repr

/-- Embedding of swarm.ts lines 169-174: the tool calls of this model result
that have no tool result and have not already been processed as handovers
this invocation. -/
def unhandledToolCalls (toolCalls : List ModelToolCall)
    (toolResultIds processed : List String) : List ModelToolCall :=
  toolCalls.filter (fun c =>
    !(toolResultIds.contains c.toolCallId) && !(processed.contains c.toolCallId))

/-- Embedding of swarm.ts lines 178-181: the unresolved calls whose original,
un-wrapped tool has `type: "handover"`. -/
def handoverCallsOf (unhandled : List ModelToolCall)
    (toolKind : String → ToolKind) : List ModelToolCall :=
  unhandled.filter (fun c => toolKind c.toolName == ToolKind.handover)

/-- Embedding of the "clean out unused tool calls" filter at swarm.ts lines
251-262: on an assistant message with array content, drop every `tool-call`
part whose id is among the unused ids; string content and parts of other
types are untouched (a `tool-result` or `user` message is also unchanged,
since none of its parts has `type === "tool-call"`). -/
def cleanUnusedToolCalls (unusedIds : List String) : SwarmMsg → SwarmMsg
  | .assistant sender (.parts ps) =>
      .assistant sender (.parts (ps.filter (fun p =>
        match p with
        | .toolCall c => !(unusedIds.contains c.toolCallId)
        | .text _ => true)))
  | m => m

/-- Apply `f` to the last element of a list (the in-place mutation of
`responseMessages.at(-2)` after the tool message was pushed, i.e. of the last
element present before the push). -/
def modifyLast (f : α → α) : List α → List α
  | [] => []
  | [a] => [f a]
  | a :: b :: rest => a :: modifyLast f (b :: rest)

/-- The synthesized action-result message for a handover call (swarm.ts lines
230-243): a tool-role message whose single part answers the handled call with
`"Handing over to agent <name>"`. -/
def synthHandoverMsg (call : ModelToolCall) (newAgentName : String) : SwarmMsg :=
  .tool [⟨call.toolCallId, call.toolName, "Handing over to agent " ++ newAgentName⟩]

/-- Output of the handover-processing block: the updated orchestrator state,
transcript, processed-id set, and the list of calls whose executor actually
ran. -/
structure HandoverOutcome where
  state : SwarmCore
  responseMessages : List SwarmMsg
  processed : List String
  executed : List ModelToolCall

/-- Embedding of the handover-processing block, swarm.ts lines 202-262
(`generateText`; lines 488-577 of `streamText` update state identically):
if there are handover calls, execute the first one's original executor with
`{...args, ...context}`, install the returned agent, merge the returned
context update if present, mark the call's id processed, append the
synthesized tool-result message, and filter the tool-call parts of every
additional handover call out of the assistant message that sits just before
the pushed tool message (`responseMessages.at(-2)`). -/
def processHandoverBlock (s : SwarmCore)
    (tools : String → Ctx → HandoverResult)
    (handoverCalls : List ModelToolCall)
    (responseMessages : List SwarmMsg)
    (processed : List String) : HandoverOutcome :=
  match handoverCalls with
  | [] => ⟨s, responseMessages, processed, []⟩
  | first :: rest =>
    let result := tools first.toolName
      (handoverExecutorArgs (Ctx.ofList first.args) s.context)
    let s' := applyHandoverResult s result
    let processed' := processed ++ [first.toolCallId]
    let unusedIds := rest.map (·.toolCallId)
    let msgs' := modifyLast (cleanUnusedToolCalls unusedIds) responseMessages
      ++ [synthHandoverMsg first s'.activeAgent.name]
    ⟨s', msgs', processed', [first]⟩

/-- The `toolCallId`s answered by tool-role messages in a transcript. -/
def toolResultIdsIn (msgs : List SwarmMsg) : List String :=
  msgs.flatMap (fun m =>
    match m with
    | .tool parts => parts.map (·.toolCallId)
    | _ => [])

theorem modifyLast_append_singleton (f : α → α) (ms : List α) (a : α) :
    modifyLast f (ms ++ [a]) = ms ++ [f a] := by
  induction ms with
  | nil => rfl
  | cons x xs ih =>
    cases xs with
    | nil => rfl
    | cons y ys => simpa [modifyLast] using ih

theorem Ctx.spread_empty (c : Ctx) : c.spread Ctx.empty = c := by
  funext k; simp [Ctx.spread, Ctx.empty]

theorem drop_append_pair (ms : List α) (x y : α) :
    (ms ++ [x] ++ [y]).drop (ms.length + 1) = [y] := by
  induction ms with
  | nil => rfl
  | cons a as ih => simp [ih]

/-- C1. In any round whose model result yields at least one unresolved
handover call (an unhandled call whose original tool has
`type: "handover"`), after the handover-processing block runs, the active
agent is exactly the agent returned by the first handover call's executor,
and the context is the shallow merge of the prior context with the
executor's returned context update — the prior context unchanged when the
executor returns none (`merge(priorContext, result.context ?? {})`). This is
the state update of both `generateText` (swarm.ts lines 202-227) and
`streamText` (lines 488-535), which run identical code. -/
theorem handover_round_state_spec (s : SwarmCore)
    (tools : String → Ctx → HandoverResult) (toolKind : String → ToolKind)
    (toolCalls : List ModelToolCall) (toolResultIds processed : List String)
    (msgs : List SwarmMsg) (first : ModelToolCall) (rest : List ModelToolCall)
    (h : handoverCallsOf (unhandledToolCalls toolCalls toolResultIds processed) toolKind
      = first :: rest) :
    (processHandoverBlock s tools
        (handoverCallsOf (unhandledToolCalls toolCalls toolResultIds processed) toolKind)
        msgs processed).state.activeAgent
      = (tools first.toolName (handoverExecutorArgs (Ctx.ofList first.args) s.context)).agent ∧
    (processHandoverBlock s tools
        (handoverCallsOf (unhandledToolCalls toolCalls toolResultIds processed) toolKind)
        msgs processed).state.context
      = s.context.spread
          ((tools first.toolName
            (handoverExecutorArgs (Ctx.ofList first.args) s.context)).context.getD Ctx.empty) := by
  rw [h]
  refine ⟨rfl, ?_⟩
  cases hu : (tools first.toolName (handoverExecutorArgs (Ctx.ofList first.args) s.context)).context with
  | none => simp [processHandoverBlock, applyHandoverResult, hu, Ctx.spread_empty]
  | some u => simp [processHandoverBlock, applyHandoverResult, hu]

/-- Witness for `handover_round_state_spec`: a router agent whose single
unresolved call is a handover to a specialist carrying a context update. -/
theorem handover_round_state_spec_witness :
    (processHandoverBlock ⟨⟨"u1", "queen"⟩, Ctx.ofList [("topic", .null)]⟩
        (fun _ _ => ⟨⟨"u2", "specialist"⟩, some (Ctx.ofList [("topic", .str "sales")])⟩)
        (handoverCallsOf
          (unhandledToolCalls [⟨"call-1", "transfer", [("topic", .str "guess")]⟩] [] [])
          (fun _ => ToolKind.handover))
        [.assistant "queen" (.parts [.toolCall ⟨"call-1", "transfer", [("topic", .str "guess")]⟩])]
        []).state.activeAgent = ⟨"u2", "specialist"⟩ := by
  exact (handover_round_state_spec ⟨⟨"u1", "queen"⟩, Ctx.ofList [("topic", .null)]⟩
    (fun _ _ => ⟨⟨"u2", "specialist"⟩, some (Ctx.ofList [("topic", .str "sales")])⟩)
    (fun _ => ToolKind.handover)
    [⟨"call-1", "transfer", [("topic", .str "guess")]⟩] [] []
    [.assistant "queen" (.parts [.toolCall ⟨"call-1", "transfer", [("topic", .str "guess")]⟩])]
    ⟨"call-1", "transfer", [("topic", .str "guess")]⟩ [] (by decide)).1

theorem modifyLast_length (f : α → α) (l : List α) :
    (modifyLast f l).length = l.length := by
  induction l with
  | nil => rfl
  | cons a as ih =>
    cases as with
    | nil => rfl
    | cons b bs => simp only [modifyLast, List.length_cons] at ih ⊢; omega

/-- C4 counterexample. A model step that executed a function call
(`call-0`, answered in the step's trailing tool message) and also emitted
two handover calls `call-1`, `call-2`: the claim says `call-2`'s tool-call
part is removed from the assistant message, but the cleanup edits the
message at position -2 after the synthesized push — here the step's own
tool message, which has no tool-call parts — so the assistant message comes
out of the block unchanged, `call-2`'s tool-call part still in it. -/
theorem handover_first_only_counterexample :
    (processHandoverBlock ⟨⟨"u1", "queen"⟩, Ctx.empty⟩
        (fun _ _ => ⟨⟨"u2", "specialist"⟩, none⟩)
        (handoverCallsOf
          (unhandledToolCalls
            [⟨"call-0", "getWeather", []⟩, ⟨"call-1", "transfer", []⟩,
             ⟨"call-2", "transfer", []⟩]
            ["call-0"] [])
          (fun n => if n = "transfer" then ToolKind.handover else ToolKind.function))
        [SwarmMsg.assistant "queen" (.parts
            [.toolCall ⟨"call-0", "getWeather", []⟩, .toolCall ⟨"call-1", "transfer", []⟩,
             .toolCall ⟨"call-2", "transfer", []⟩]),
         SwarmMsg.tool [⟨"call-0", "getWeather", "sunny"⟩]]
        []).responseMessages
      = [SwarmMsg.assistant "queen" (.parts
            [.toolCall ⟨"call-0", "getWeather", []⟩, .toolCall ⟨"call-1", "transfer", []⟩,
             .toolCall ⟨"call-2", "transfer", []⟩]),
         SwarmMsg.tool [⟨"call-0", "getWeather", "sunny"⟩],
         SwarmMsg.tool [⟨"call-1", "transfer", "Handing over to agent specialist"⟩]] := by
  decide

/-- C4 amended. When one model step produces several unresolved handover
calls, the block executes only the first one (`executed = [first]`); the
first call's id is marked processed, so no later round's unresolved-call
computation can pick it up again; the single synthesized action-result
message answers the first call only, and no additional call ever receives
one. The additional calls' tool-call parts are cleaned out of the message
sitting just before the pushed tool message: when the round's response ends
with the assistant message (a pure handover step) they are removed from it,
but when the response ends with a tool message (a function call executed in
the same step) the cleanup hits that tool message and removes nothing — the
additional handover calls' tool-call parts stay in the assistant message
(`generateText`'s fixed `at(-2)`, swarm.ts lines 246-262; `streamText`
lines 537-544 locate the assistant message past a trailing tool message, so
only the non-streaming path has this gap). -/
theorem handover_first_only_amended (s : SwarmCore)
    (tools : String → Ctx → HandoverResult)
    (first : ModelToolCall) (rest : List ModelToolCall)
    (responseMessages : List SwarmMsg) (processed : List String)
    (hids : first.toolCallId ∉ rest.map (·.toolCallId)) :
    (processHandoverBlock s tools (first :: rest) responseMessages processed).executed
      = [first] ∧
    (processHandoverBlock s tools (first :: rest) responseMessages processed).processed
      = processed ++ [first.toolCallId] ∧
    (∀ futureCalls trIds (c : ModelToolCall),
      c ∈ unhandledToolCalls futureCalls trIds
        (processHandoverBlock s tools (first :: rest) responseMessages processed).processed →
      c.toolCallId ≠ first.toolCallId) ∧
    (∀ c ∈ rest, c.toolCallId ∉ toolResultIdsIn
        ((processHandoverBlock s tools (first :: rest) responseMessages
            processed).responseMessages.drop responseMessages.length)) ∧
    (∀ ms sender ps, responseMessages = ms ++ [.assistant sender (.parts ps)] →
      (processHandoverBlock s tools (first :: rest) responseMessages
          processed).responseMessages
        = ms ++ [.assistant sender (.parts (ps.filter (fun p =>
              match p with
              | .toolCall c => !((rest.map (·.toolCallId)).contains c.toolCallId)
              | .text _ => true)))]
          ++ [synthHandoverMsg first
                (tools first.toolName
                  (handoverExecutorArgs (Ctx.ofList first.args) s.context)).agent.name] ∧
      (∀ c ∈ rest, AsstPart.toolCall c ∉ (ps.filter (fun p =>
          match p with
          | .toolCall c => !((rest.map (·.toolCallId)).contains c.toolCallId)
          | .text _ => true)))) ∧
    (∀ ms tps, responseMessages = ms ++ [SwarmMsg.tool tps] →
      (processHandoverBlock s tools (first :: rest) responseMessages
          processed).responseMessages
        = ms ++ [SwarmMsg.tool tps]
          ++ [synthHandoverMsg first
                (tools first.toolName
                  (handoverExecutorArgs (Ctx.ofList first.args) s.context)).agent.name]) := by
  have hout : (processHandoverBlock s tools (first :: rest) responseMessages
      processed).responseMessages
      = modifyLast (cleanUnusedToolCalls (rest.map (·.toolCallId))) responseMessages
        ++ [synthHandoverMsg first
              (tools first.toolName
                (handoverExecutorArgs (Ctx.ofList first.args) s.context)).agent.name] := by
    simp [processHandoverBlock, applyHandoverResult]
  refine ⟨rfl, rfl, ?_, ?_, ?_, ?_⟩
  · intro futureCalls trIds c hc heq
    have := List.of_mem_filter hc
    simp only [processHandoverBlock, Bool.and_eq_true, Bool.not_eq_true',
      List.contains, List.elem_eq_mem, decide_eq_false_iff_not] at this
    exact this.2 (by simp [heq])
  · intro c hc
    rw [hout, ← modifyLast_length (cleanUnusedToolCalls (rest.map (·.toolCallId)))
      responseMessages, List.drop_left]
    simp only [toolResultIdsIn, synthHandoverMsg, List.flatMap_cons, List.flatMap_nil,
      List.map_cons, List.map_nil, List.append_nil, List.mem_cons, List.not_mem_nil, or_false]
    intro heq
    exact hids (heq ▸ List.mem_map_of_mem (·.toolCallId) hc)
  · intro ms sender ps heq
    subst heq
    refine ⟨?_, ?_⟩
    · rw [hout, modifyLast_append_singleton]
      simp [cleanUnusedToolCalls]
    · intro c hc hmem
      have := List.of_mem_filter hmem
      simp only [Bool.not_eq_true', List.contains, List.elem_eq_mem,
        decide_eq_false_iff_not] at this
      exact this (List.mem_map_of_mem (·.toolCallId) hc)
  · intro ms tps heq
    subst heq
    rw [hout, modifyLast_append_singleton]
    simp [cleanUnusedToolCalls]

/-- Witness for `handover_first_only_amended`: one step emitting two
handover calls `call-1` and `call-2`; only `call-1` is executed. -/
theorem handover_first_only_amended_witness :
    (processHandoverBlock ⟨⟨"u1", "queen"⟩, Ctx.empty⟩
        (fun _ _ => ⟨⟨"u2", "specialist"⟩, none⟩)
        [⟨"call-1", "transfer", []⟩, ⟨"call-2", "transfer", []⟩]
        [SwarmMsg.assistant "queen" (.parts
          [.toolCall ⟨"call-1", "transfer", []⟩, .toolCall ⟨"call-2", "transfer", []⟩])]
        []).executed = [⟨"call-1", "transfer", []⟩] := by
  exact (handover_first_only_amended ⟨⟨"u1", "queen"⟩, Ctx.empty⟩
    (fun _ _ => ⟨⟨"u2", "specialist"⟩, none⟩)
    ⟨"call-1", "transfer", []⟩ [⟨"call-2", "transfer", []⟩]
    [SwarmMsg.assistant "queen" (.parts
      [.toolCall ⟨"call-1", "transfer", []⟩, .toolCall ⟨"call-2", "transfer", []⟩])]
    [] (by decide)).1

/-! ## The turn-loop driver and its budget -/

/-- The observables of one round of the `do ... while` turn loop that its
control flow depends on (swarm.ts lines 141-282 in `generateText`, 411-596 in
`streamText`): how many assistant messages the model response appended to
`responseMessages` this round, whether the finish reason was terminal
(`stop`/`length`/`content-filter`/`error`, lines 184-191), whether there were
neither unhandled tool calls nor handover calls (lines 193-196), and whether
the per-agent `maxTurns` break fired (lines 270-278). -/
structure RoundResult where
  assistantMsgCount : Nat
  terminalFinish : Bool
  noUnhandled : Bool
  agentCapBreak : Bool

/-- Embedding of the turn-loop driver: `rounds i` is the `i`-th round's
observables, `count` the number of assistant messages accumulated in
`responseMessages` so far, and the loop repeats while
`responseMessages.filter(assistant).length < maxTotalSteps` (lines 279-282).
The `fuel` argument bounds the recursion so the definition is total; the
returned value is the number of rounds executed (`none` if `fuel` rounds did
not suffice, i.e. the loop was still running). -/
def turnLoopRounds (rounds : Nat → RoundResult) (maxTotalSteps : Nat) :
    Nat → Nat → Nat → Option Nat
  | 0, _, _ => none
  | fuel + 1, count, r =>
    let res := rounds r
    let count' := count + res.assistantMsgCount
    if res.terminalFinish || res.noUnhandled || res.agentCapBreak then some (r + 1)
    else if count' < maxTotalSteps then
      turnLoopRounds rounds maxTotalSteps fuel count' (r + 1)
    else some (r + 1)

theorem turnLoopRounds_terminates (rounds : Nat → RoundResult) (maxTotalSteps : Nat)
    (hr : ∀ i, 1 ≤ (rounds i).assistantMsgCount) :
    ∀ fuel count r, count < maxTotalSteps → maxTotalSteps - count ≤ fuel →
    ∃ k, turnLoopRounds rounds maxTotalSteps fuel count r = some k ∧
      k ≤ r + (maxTotalSteps - count) := by
  intro fuel
  induction fuel with
  | zero => intro count r h1 h2; omega
  | succ fuel ih =>
    intro count r h1 h2
    by_cases hb : ((rounds r).terminalFinish || (rounds r).noUnhandled ||
        (rounds r).agentCapBreak) = true
    · exact ⟨r + 1, by simp [turnLoopRounds, hb], by omega⟩
    · simp only [Bool.not_eq_true] at hb
      by_cases hc : count + (rounds r).assistantMsgCount < maxTotalSteps
      · obtain ⟨k, hk, hkb⟩ := ih (count + (rounds r).assistantMsgCount) (r + 1) hc
          (by have := hr r; omega)
        refine ⟨k, ?_, ?_⟩
        · simpa [turnLoopRounds, hb, hc] using hk
        · have := hr r; omega
      · exact ⟨r + 1, by simp [turnLoopRounds, hb, hc], by omega⟩

/-- C3. For any global turn budget `N ≥ 1` and any behavior in which every
round appends at least one assistant message (as a round of an agent whose
only action is a handover back to itself does: its model response carries the
assistant message holding the handover call), the turn loop terminates within
`N` rounds: giving the driver `N` units of fuel already suffices, and the
number of executed rounds is at most `N`. -/
theorem turn_loop_terminates_within_budget (rounds : Nat → RoundResult)
    (N : Nat) (hN : 1 ≤ N)
    (hr : ∀ i, 1 ≤ (rounds i).assistantMsgCount) :
    ∃ k, turnLoopRounds rounds N N 0 0 = some k ∧ k ≤ N := by
  obtain ⟨k, hk, hkb⟩ := turnLoopRounds_terminates rounds N hr N 0 0 (by omega) (by omega)
  exact ⟨k, hk, by omega⟩

/-- Witness for `turn_loop_terminates_within_budget`: a self-handover agent
(each round: one assistant message, finish reason `tool-calls`, an unresolved
handover, no per-agent cap) under global budget `3`. -/
theorem turn_loop_terminates_within_budget_witness :
    ∃ k, turnLoopRounds (fun _ => ⟨1, false, false, false⟩) 3 3 0 0 = some k ∧ k ≤ 3 :=
  turn_loop_terminates_within_budget (fun _ => ⟨1, false, false, false⟩) 3
    (by decide) (fun _ => Nat.le_refl 1)

/-! ## Message-history persistence -/

/-- Embedding of the end of `Swarm.generateText` (swarm.ts lines 293-299):
when the invocation was given plain `content`, push the new user message
first, then append the response messages. `content = none` models both the
messages-mode invocation and falsy content. -/
def persistGenerateText (prior : List SwarmMsg) (content : Option String)
    (responseMessages : List SwarmMsg) : List SwarmMsg :=
  (match content with
   | some u => prior ++ [SwarmMsg.user u]
   | none => prior) ++ responseMessages

/-- Embedding of the end of `Swarm.streamText` (swarm.ts lines 598-602):
append the response messages first, then push the new user message if the
invocation was given plain `content`. -/
def persistStreamText (prior : List SwarmMsg) (content : Option String)
    (responseMessages : List SwarmMsg) : List SwarmMsg :=
  let withResponses := prior ++ responseMessages
  match content with
  | some u => withResponses ++ [SwarmMsg.user u]
  | none => withResponses

/-- C10. With plain content input, the streaming entry point persists the
round as prior history, then the response messages, then the user message
appended last; the non-streaming entry point persists the user message before
the response messages — so whenever there is at least one response message
(and, as always in a real round, none of them is the new user message), the
two entry points store the same round in different orders. -/
theorem persist_order_differs (prior responseMessages : List SwarmMsg) (u : String)
    (hu : SwarmMsg.user u ∉ responseMessages) :
    persistStreamText prior (some u) responseMessages
      = prior ++ responseMessages ++ [SwarmMsg.user u] ∧
    persistGenerateText prior (some u) responseMessages
      = prior ++ [SwarmMsg.user u] ++ responseMessages ∧
    (responseMessages ≠ [] →
      persistStreamText prior (some u) responseMessages
        ≠ persistGenerateText prior (some u) responseMessages) := by
  refine ⟨rfl, by simp [persistGenerateText], fun hne heq => ?_⟩
  have h1 : (persistStreamText prior (some u) responseMessages).getLast?
      = some (SwarmMsg.user u) := by
    simp [persistStreamText]
  have h2 : (persistGenerateText prior (some u) responseMessages).getLast?
      = responseMessages.getLast? := by
    have : persistGenerateText prior (some u) responseMessages
        = (prior ++ [SwarmMsg.user u]) ++ responseMessages := by
      simp [persistGenerateText]
    rw [this, List.getLast?_append_of_ne_nil _ hne]
  rw [heq, h2] at h1
  have hmem : SwarmMsg.user u ∈ responseMessages.getLast? := by
    rw [h1]; rfl
  obtain ⟨h, huv⟩ := List.mem_getLast?_eq_getLast hmem
  exact hu (huv ▸ List.getLast_mem h)

/-- Witness for `persist_order_differs`: one prior exchange, a user message
`"Hi"`, one assistant response. -/
theorem persist_order_differs_witness :
    persistStreamText [SwarmMsg.system "s"] (some "Hi")
        [SwarmMsg.assistant "queen" (.str "Hello!")]
      = [SwarmMsg.system "s", SwarmMsg.assistant "queen" (.str "Hello!"),
         SwarmMsg.user "Hi"] ∧
    persistGenerateText [SwarmMsg.system "s"] (some "Hi")
        [SwarmMsg.assistant "queen" (.str "Hello!")]
      = [SwarmMsg.system "s", SwarmMsg.user "Hi",
         SwarmMsg.assistant "queen" (.str "Hello!")] := by
  have h := persist_order_differs [SwarmMsg.system "s"]
    [SwarmMsg.assistant "queen" (.str "Hello!")] "Hi" (by decide)
  exact ⟨h.1, h.2.1⟩


/-! ## The stream multiplexer (`createStitchableStream`, utils.ts lines 57-148) -/

/-- One read from an attached inner stream: a delivered chunk
(`reader.read()` resolving with a value) or a rejecting read (the source
failing). A source that completes normally is a finite list of `ok` reads. -/
inductive SrcItem (α : Type) where
  | ok : α → SrcItem α
  | fail : SrcItem α
  deriving DecidableEq, Repr

/-- An event the consumer observes on the multiplexer's output: a delivered
chunk (`controller.enqueue`), or the terminal error (`controller.error`).
Normal completion (`controller.close`) is the end of the event list. -/
inductive OutEvent (α : Type) where
  | item : α → OutEvent α
  | errorEvt : OutEvent α
  deriving DecidableEq, Repr

/-- Embedding of repeated `processPull` (utils.ts lines 68-112) for a
consumer that keeps reading after `close()` was called with all (finite)
sources already attached, so the waiting branch (case 2) never fires:

* no readers left (case 1): `controller.close()` — the event list ends;
* current reader done (case 3): shift it and continue with the next;
* current reader yields a chunk (case 4): `controller.enqueue(value)`;
* current reader rejects (case 5): `controller.error(error)` — per the
  Streams standard this errors the output terminally: no further pull is
  ever made, so the `shift()` that follows in the source has no observable
  effect and the remaining readers are never read. -/
def drainAll {α : Type} : List (List (SrcItem α)) → List (OutEvent α)
  | [] => []
  | [] :: rest => drainAll rest
  | (SrcItem.ok a :: xs) :: rest => OutEvent.item a :: drainAll (xs :: rest)
  | (SrcItem.fail :: _) :: _ => [OutEvent.errorEvt]
termination_by ss => (ss.map List.length).sum + ss.length
decreasing_by
  all_goals simp

theorem drainAll_none : drainAll ([] : List (List (SrcItem α))) = [] := by
  rw [drainAll.eq_def]

theorem drainAll_shift (rest : List (List (SrcItem α))) :
    drainAll ([] :: rest) = drainAll rest := by
  rw [drainAll.eq_def]

theorem drainAll_emit (a : α) (xs : List (SrcItem α)) (rest : List (List (SrcItem α))) :
    drainAll ((SrcItem.ok a :: xs) :: rest) = OutEvent.item a :: drainAll (xs :: rest) := by
  rw [drainAll.eq_def]

theorem drainAll_err (xs : List (SrcItem α)) (rest : List (List (SrcItem α))) :
    drainAll ((SrcItem.fail :: xs) :: rest) = [OutEvent.errorEvt] := by
  rw [drainAll.eq_def]

theorem drainAll_okList (l : List α) (rest : List (List (SrcItem α))) :
    drainAll (l.map SrcItem.ok :: rest) = l.map OutEvent.item ++ drainAll rest := by
  induction l with
  | nil => rw [List.map_nil, drainAll_shift]; rfl
  | cons a as ih => rw [List.map_cons, drainAll_emit, ih]; rfl

/-- C5. With all sources attached and none failing, the multiplexer's output
is exactly the concatenation of the sources in attachment order: each
source's chunks appear in their original relative order, each source is
consumed fully before the next one is read, and chunks of two different
sources never interleave. -/
theorem mux_output_is_concat_in_order {α : Type} (sources : List (List α)) :
    drainAll (sources.map (fun s => s.map SrcItem.ok))
      = sources.flatten.map OutEvent.item := by
  induction sources with
  | nil => exact drainAll_none
  | cons s rest ih => simp [drainAll_okList, ih]

theorem drainAll_okList_inner (l : List α) (q : List (SrcItem α))
    (rest : List (List (SrcItem α))) :
    drainAll ((l.map SrcItem.ok ++ q) :: rest)
      = l.map OutEvent.item ++ drainAll (q :: rest) := by
  induction l with
  | nil => rfl
  | cons a as ih => rw [List.map_cons, List.cons_append, drainAll_emit, ih]; rfl

/-- C6 counterexample. Three attached sources, the second of which fails on
its first read: the claim says the multiplexer moves on to the next queued
source after propagating the error, so `2` should still be delivered — but
the output is `[1, error]` and the third source's chunk never appears. -/
theorem mux_error_counterexample :
    drainAll [[SrcItem.ok 1], [SrcItem.fail], [SrcItem.ok 2]]
      = [OutEvent.item 1, OutEvent.errorEvt] ∧
    OutEvent.item 2 ∉ drainAll [[SrcItem.ok 1], [SrcItem.fail], [SrcItem.ok 2]] := by
  have h : drainAll [[SrcItem.ok 1], [SrcItem.fail], [SrcItem.ok 2]]
      = [OutEvent.item 1, OutEvent.errorEvt] := by
    rw [drainAll_emit, drainAll_shift, drainAll_err]
  refine ⟨h, ?_⟩
  rw [h]
  simp

/-- C6 amended. When an attached source fails, the multiplexer delivers the
failure as a single terminal error event: every chunk delivered before the
failure — all chunks of earlier completed sources and the failing source's
own chunks before the failing read — is kept, but the output ends at the
error event; queued later sources are never consumed. -/
theorem mux_error_terminates_output {α : Type} (sources : List (List α))
    (good : List α) (tail : List (SrcItem α)) (rest : List (List (SrcItem α))) :
    drainAll (sources.map (fun s => s.map SrcItem.ok)
        ++ (good.map SrcItem.ok ++ SrcItem.fail :: tail) :: rest)
      = (sources.flatten ++ good).map OutEvent.item ++ [OutEvent.errorEvt] := by
  induction sources with
  | nil =>
    rw [List.map_nil, List.nil_append, drainAll_okList_inner, drainAll_err]
    simp
  | cons s ss ih =>
    rw [List.map_cons, List.cons_append, drainAll_okList, ih]
    simp

/-! ## The streaming full stream and the data-stream protocol encoder -/

/-- The chunk types `Swarm.streamText`'s `toDataStream` switch distinguishes
(swarm.ts lines 655-797), with the payload fields the encoder reads. The
`source` constructor carries the serialized form of the source object;
`unknown` stands for any chunk type outside the table (skipped silently). -/
inductive StreamEvent where
  | textDelta (textDelta : String)
  | reasoning (textDelta : String)
  | redactedReasoning (data : String)
  | reasoningSignature (signature : String)
  | source (source : String)
  | file (mimeType base64 : String)
  | toolCallStreamingStart (toolCallId toolName : String)
  | toolCallDelta (toolCallId argsTextDelta : String)
  | toolCall (toolCallId toolName : String) (args : List (String × JValue))
  | toolResult (toolCallId toolName result : String)
      (args : List (String × JValue)) (handedOverTo : Option Agent)
  | stepStart (messageId : String)
  | stepFinish (finishReason : String) (promptTokens completionTokens : Nat)
      (isContinued : Bool)
  | finish (finishReason : String) (promptTokens completionTokens : Nat)
  | error (message : String)
  | unknown (type : String)
  deriving DecidableEq, Repr

/-- A chunk as it travels through the swarm's streams: the part itself plus
the optional agent tag (`ExtendedTextStreamPart`); `none` models a raw
AI-SDK chunk that has not been annotated yet. -/
structure TaggedEvent where
  part : StreamEvent
  agent : Option Agent
  deriving DecidableEq, Repr

/-- The `fullStream` annotation transform (swarm.ts lines 380-400): a chunk
that already carries an `agent` field passes through unchanged, any other
chunk is annotated with the currently active agent. -/
def annotateWith (a : Agent) (e : TaggedEvent) : TaggedEvent :=
  match e.agent with
  | some _ => e
  | none => { e with agent := some a }

/-- The data of the artificial handover tool-result chunk built at swarm.ts
lines 521-532. -/
structure HandoverEvent where
  toolCallId : String
  toolName : String
  args : List (String × JValue)
  handedOverTo : Agent
  previousAgent : Agent
  deriving DecidableEq, Repr

/-- Build the artificial chunk: a `tool-result` part with result
`"Handing over to agent <name>"`, the handed-over-to identity, tagged with
the previous agent. -/
def HandoverEvent.toPart (h : HandoverEvent) : TaggedEvent :=
  ⟨.toolResult h.toolCallId h.toolName
      ("Handing over to agent " ++ h.handedOverTo.name) h.args (some h.handedOverTo),
    some h.previousAgent⟩

/-- One round of the streaming turn loop as `fullStream` sees it: the agent
active while the round's chunks are delivered, the round's raw model-client
stream (`lastResult.fullStream`, attached via `addStream` at line 431), the
value the round's `text` promise resolves to (line 443: `finalText += text`),
and the artificial handover tool-result enqueued at line 534 when the round
performed a handover. -/
structure StreamRound where
  agent : Agent
  parts : List TaggedEvent
  text : String
  handover : Option HandoverEvent
  deriving DecidableEq, Repr

/-- The chunk sequence delivered on `fullStream` over an invocation that
completes without error: the rounds' streams are stitched in round order
(multiplexer ordering), every chunk is annotated,
and each round's artificial handover chunk (already tagged) follows the
round's own chunks. -/
def invocationFullStream (rounds : List StreamRound) : List TaggedEvent :=
  rounds.flatMap (fun r =>
    r.parts.map (annotateWith r.agent) ++ (r.handover.map HandoverEvent.toPart).toList)

/-- The value the invocation's final-text promise resolves to: the
concatenation of the rounds' resolved `text` values (swarm.ts lines 443 and
613). -/
def invocationFinalText : List StreamRound → String
  | [] => ""
  | r :: rs => r.text ++ invocationFinalText rs

/-- The concatenation of the text-increment (`text-delta`) payloads of a
chunk sequence, in delivery order. -/
def textDeltasConcat : List TaggedEvent → String
  | [] => ""
  | e :: es =>
    (match e.part with
     | .textDelta s => s
     | _ => "") ++ textDeltasConcat es

theorem annotateWith_part (a : Agent) (e : TaggedEvent) :
    (annotateWith a e).part = e.part := by
  cases e with
  | mk p ag => cases ag <;> rfl

theorem textDeltasConcat_append (xs ys : List TaggedEvent) :
    textDeltasConcat (xs ++ ys) = textDeltasConcat xs ++ textDeltasConcat ys := by
  induction xs with
  | nil => simp [textDeltasConcat]
  | cons e es ih => simp [textDeltasConcat, ih, String.append_assoc]

theorem textDeltasConcat_map_annotate (a : Agent) (es : List TaggedEvent) :
    textDeltasConcat (es.map (annotateWith a)) = textDeltasConcat es := by
  induction es with
  | nil => rfl
  | cons e es ih => simp [textDeltasConcat, annotateWith_part, ih]

/-- C7. For a streaming invocation that completes without error, assuming
the model-client contract that each round's `text` promise resolves to the
concatenation of that round's own `text-delta` payloads, concatenating the
text-increment payloads of every chunk of the fully-annotated `fullStream`,
in delivery order, yields exactly the string the final-text promise
resolves to. -/
theorem fullstream_text_roundtrip (rounds : List StreamRound)
    (h : ∀ r ∈ rounds, r.text = textDeltasConcat r.parts) :
    textDeltasConcat (invocationFullStream rounds) = invocationFinalText rounds := by
  induction rounds with
  | nil => rfl
  | cons r rs ih =>
    have hr : r.text = textDeltasConcat r.parts := h r (by simp)
    have hrest := ih (fun x hx => h x (by simp [hx]))
    have hho : textDeltasConcat ((r.handover.map HandoverEvent.toPart).toList) = "" := by
      cases r.handover with
      | none => rfl
      | some hv => rfl
    calc textDeltasConcat (invocationFullStream (r :: rs))
        = textDeltasConcat (r.parts.map (annotateWith r.agent))
            ++ (textDeltasConcat ((r.handover.map HandoverEvent.toPart).toList)
            ++ textDeltasConcat (invocationFullStream rs)) := by
          simp [invocationFullStream, textDeltasConcat_append, String.append_assoc]
      _ = invocationFinalText (r :: rs) := by
          rw [hho, textDeltasConcat_map_annotate, ← hr, hrest]
          simp [invocationFinalText]

/-- Witness for `fullstream_text_roundtrip`: a two-round handover invocation
whose deltas spell `"Hello"` and `" world"`. -/
theorem fullstream_text_roundtrip_witness :
    textDeltasConcat (invocationFullStream
      [⟨⟨"u1", "queen"⟩,
        [⟨.textDelta "Hel", none⟩, ⟨.textDelta "lo", none⟩,
         ⟨.toolCall "c1" "transfer" [], none⟩, ⟨.finish "tool-calls" 1 1, none⟩],
        "Hello",
        some ⟨"c1", "transfer", [], ⟨"u2", "specialist"⟩, ⟨"u1", "queen"⟩⟩⟩,
       ⟨⟨"u2", "specialist"⟩,
        [⟨.textDelta " world", none⟩, ⟨.finish "stop" 1 1, none⟩],
        " world", none⟩])
    = invocationFinalText
      [⟨⟨"u1", "queen"⟩,
        [⟨.textDelta "Hel", none⟩, ⟨.textDelta "lo", none⟩,
         ⟨.toolCall "c1" "transfer" [], none⟩, ⟨.finish "tool-calls" 1 1, none⟩],
        "Hello",
        some ⟨"c1", "transfer", [], ⟨"u2", "specialist"⟩, ⟨"u1", "queen"⟩⟩⟩,
       ⟨⟨"u2", "specialist"⟩,
        [⟨.textDelta " world", none⟩, ⟨.finish "stop" 1 1, none⟩],
        " world", none⟩] :=
  fullstream_text_roundtrip _ (by decide)

/-- The options of `toDataStream` (`SwarmToDataStreamOptions`), with the
JavaScript truthiness defaults resolved to booleans: `sendUsage`,
`experimental_sendFinish` and `experimental_sendStart` are on unless the
caller passes `false` (`!== false` checks), `sendReasoning` and
`sendSources` are off unless passed truthy; `getErrorMessage` is the
optional error formatter. -/
structure SwarmToDataStreamOptions where
  getErrorMessage : Option (String → String)
  sendUsage : Bool
  sendReasoning : Bool
  sendSources : Bool
  experimental_sendFinish : Bool
  experimental_sendStart : Bool

/-- The options object when the caller passes none. -/
def defaultDataStreamOptions : SwarmToDataStreamOptions :=
  ⟨none, true, false, false, true, true⟩

/-- One encoded protocol unit `<code>:<payload>\n`, kept as its code and
payload (every unit the encoder emits is exactly one line: all embedded
payloads escape newlines). -/
structure DataLine where
  code : String
  payload : String
  deriving DecidableEq, Repr

/-- The string escaping applied to text and error payloads (swarm.ts lines
658-663 and 786-791): backslash, double quote, newline, carriage return and
tab. -/
def escapeJs (s : String) : String :=
  String.join (s.data.map (fun c =>
    if c = '\\' then "\\\\"
    else if c = '"' then "\\\""
    else if c = '\n' then "\\n"
    else if c = '\r' then "\\r"
    else if c = '\t' then "\\t"
    else String.singleton c))

/-- A JSON string literal (the model of `JSON.stringify` on a string). -/
def jsonStr (s : String) : String := "\"" ++ escapeJs s ++ "\""

/-- The model of `JSON.stringify` on a flat object, given the fields with
already-encoded values (a field whose value is `undefined` is simply not in
the list, as `JSON.stringify` drops it). -/
def jsonObj (fields : List (String × String)) : String :=
  "\x7b" ++ String.intercalate ","
    (fields.map (fun f => "\"" ++ f.1 ++ "\":" ++ f.2)) ++ "\x7d"

/-- `JSON.stringify` on a JSON value. -/
def JValue.stringify : JValue → String
  | .null => "null"
  | .bool b => if b then "true" else "false"
  | .num n => toString n
  | .str s => jsonStr s

/-- `JSON.stringify` on a tool-call argument object. -/
def jsonOfArgs (args : List (String × JValue)) : String :=
  jsonObj (args.map (fun kv => (kv.1, kv.2.stringify)))

/-- The `handedOverTo` field value for a handover tool-result line. -/
def jsonOfAgent (a : Agent) : String :=
  jsonObj [("id", jsonStr a.uuid), ("name", jsonStr a.name)]

/-- The usage object of step-finish and finish lines. -/
def jsonOfUsage (promptTokens completionTokens : Nat) : String :=
  jsonObj [("promptTokens", toString promptTokens),
           ("completionTokens", toString completionTokens)]

/-- Embedding of the chunk switch of `toDataStream` (swarm.ts lines
655-797): each chunk yields at most one protocol line; reasoning chunks are
emitted only when `sendReasoning` is set, sources only when `sendSources`
is set, the finish sentinel (code `d`) only when `experimental_sendFinish`
is not disabled, usage fields only when `sendUsage` is not disabled; chunk
types outside the table are skipped silently. -/
def encodeChunk (opts : SwarmToDataStreamOptions) : StreamEvent → Option DataLine
  | .textDelta t => some ⟨"0", jsonStr t⟩
  | .reasoning t =>
    if opts.sendReasoning then some ⟨"reasoning", t⟩ else none
  | .redactedReasoning d =>
    if opts.sendReasoning then
      some ⟨"redacted_reasoning", jsonObj [("data", jsonStr d)]⟩
    else none
  | .reasoningSignature sg =>
    if opts.sendReasoning then
      some ⟨"reasoning_signature", jsonObj [("signature", jsonStr sg)]⟩
    else none
  | .source src =>
    if opts.sendSources then some ⟨"source", src⟩ else none
  | .file mt b64 =>
    some ⟨"8", "[" ++ jsonObj [("mimeType", jsonStr mt), ("data", jsonStr b64)] ++ "]"⟩
  | .toolCallStreamingStart id name =>
    some ⟨"b", jsonObj [("toolCallId", jsonStr id), ("toolName", jsonStr name)]⟩
  | .toolCallDelta id d =>
    some ⟨"c", jsonObj [("toolCallId", jsonStr id), ("argsTextDelta", jsonStr d)]⟩
  | .toolCall id name args =>
    some ⟨"9", jsonObj [("toolCallId", jsonStr id), ("toolName", jsonStr name),
      ("args", jsonOfArgs args)]⟩
  | .toolResult id name res _args handedOverTo =>
    some ⟨"a", jsonObj ([("toolCallId", jsonStr id), ("toolName", jsonStr name),
      ("result", jsonStr res)]
      ++ (match handedOverTo with
          | some ag => [("handedOverTo", jsonOfAgent ag)]
          | none => []))⟩
  | .stepStart mid => some ⟨"f", jsonObj [("messageId", jsonStr mid)]⟩
  | .stepFinish fr pt ct cont =>
    some ⟨"e", jsonObj ([("finishReason", jsonStr fr)]
      ++ (if opts.sendUsage then [("usage", jsonOfUsage pt ct)] else [])
      ++ [("isContinued", if cont then "true" else "false")])⟩
  | .finish fr pt ct =>
    if opts.experimental_sendFinish then
      some ⟨"d", jsonObj ([("finishReason", jsonStr fr)]
        ++ (if opts.sendUsage then [("usage", jsonOfUsage pt ct)] else []))⟩
    else none
  | .error msg =>
    some ⟨"3", jsonStr
      (match opts.getErrorMessage with
       | some f => f msg
       | none => "An error occurred")⟩
  | .unknown _ => none

/-- Embedding of `toDataStream` (swarm.ts lines 637-825) on the sequence of
chunks of the fully-annotated stream: the start sentinel `2:` first unless
disabled, then one line per encodable chunk, in order. -/
def toDataStream (opts : SwarmToDataStreamOptions) (chunks : List TaggedEvent) :
    List DataLine :=
  (if opts.experimental_sendStart then [⟨"2", jsonObj []⟩] else [])
    ++ chunks.filterMap (fun e => encodeChunk opts e.part)

/-- The number of finish-sentinel (`d:`) lines among the encoded output. -/
def countFinishLines (lines : List DataLine) : Nat :=
  (lines.filter (fun l => l.code = "d")).length

/-- The number of `finish` chunks in a chunk sequence. -/
def countFinishEvents (chunks : List TaggedEvent) : Nat :=
  (chunks.filter (fun e =>
    match e.part with
    | .finish _ _ _ => true
    | _ => false)).length

theorem countFinishLines_cons (l : DataLine) (rest : List DataLine) :
    countFinishLines (l :: rest)
      = (if l.code = "d" then 1 else 0) + countFinishLines rest := by
  by_cases h : l.code = "d"
  · simp [countFinishLines, List.filter_cons, h, Nat.add_comm]
  · simp [countFinishLines, List.filter_cons, h]

theorem countFinishLines_append (xs ys : List DataLine) :
    countFinishLines (xs ++ ys) = countFinishLines xs + countFinishLines ys := by
  simp [countFinishLines, List.filter_append]

theorem countFinishEvents_cons (e : TaggedEvent) (es : List TaggedEvent) :
    countFinishEvents (e :: es)
      = (match e.part with
         | .finish _ _ _ => 1
         | _ => 0) + countFinishEvents es := by
  rcases e with ⟨p, ag⟩
  cases p <;> simp [countFinishEvents, List.filter_cons, Nat.add_comm]

theorem countFinishLines_filterMap_cons (opts : SwarmToDataStreamOptions)
    (e : TaggedEvent) (es : List TaggedEvent) :
    countFinishLines (List.filterMap (fun x => encodeChunk opts x.part) (e :: es))
      = (match encodeChunk opts e.part with
         | some l => if l.code = "d" then 1 else 0
         | none => 0)
        + countFinishLines (List.filterMap (fun x => encodeChunk opts x.part) es) := by
  rw [List.filterMap_cons]
  cases h : encodeChunk opts e.part with
  | none => simp
  | some l => simp [countFinishLines_cons]

theorem encodeChunk_d_count (opts : SwarmToDataStreamOptions) (p : StreamEvent) :
    (match encodeChunk opts p with
     | some l => if l.code = "d" then 1 else 0
     | none => 0)
    = if opts.experimental_sendFinish then
        (match p with
         | .finish _ _ _ => 1
         | _ => 0)
      else 0 := by
  cases p with
  | textDelta t => cases opts.experimental_sendFinish <;> simp [encodeChunk]
  | reasoning t =>
    by_cases hr : opts.sendReasoning <;> cases opts.experimental_sendFinish <;>
      simp [encodeChunk, hr]
  | redactedReasoning d =>
    by_cases hr : opts.sendReasoning <;> cases opts.experimental_sendFinish <;>
      simp [encodeChunk, hr]
  | reasoningSignature sg =>
    by_cases hr : opts.sendReasoning <;> cases opts.experimental_sendFinish <;>
      simp [encodeChunk, hr]
  | source src =>
    by_cases hs : opts.sendSources <;> cases opts.experimental_sendFinish <;>
      simp [encodeChunk, hs]
  | file mt b64 => cases opts.experimental_sendFinish <;> simp [encodeChunk]
  | toolCallStreamingStart id name =>
    cases opts.experimental_sendFinish <;> simp [encodeChunk]
  | toolCallDelta id d => cases opts.experimental_sendFinish <;> simp [encodeChunk]
  | toolCall id name args => cases opts.experimental_sendFinish <;> simp [encodeChunk]
  | toolResult id name res args hto =>
    cases opts.experimental_sendFinish <;> simp [encodeChunk]
  | stepStart mid => cases opts.experimental_sendFinish <;> simp [encodeChunk]
  | stepFinish fr pt ct cont =>
    cases opts.experimental_sendFinish <;> simp [encodeChunk]
  | finish fr pt ct =>
    by_cases hf : opts.experimental_sendFinish <;> simp [encodeChunk, hf]
  | error msg => cases opts.experimental_sendFinish <;> simp [encodeChunk]
  | unknown ty => cases opts.experimental_sendFinish <;> simp [encodeChunk]

theorem countFinishLines_filterMap (opts : SwarmToDataStreamOptions)
    (chunks : List TaggedEvent) :
    countFinishLines (chunks.filterMap (fun e => encodeChunk opts e.part))
      = if opts.experimental_sendFinish then countFinishEvents chunks else 0 := by
  induction chunks with
  | nil => simp [countFinishLines, countFinishEvents]
  | cons e es ih =>
    rw [countFinishLines_filterMap_cons, encodeChunk_d_count, ih, countFinishEvents_cons]
    cases opts.experimental_sendFinish <;> simp

/-- C8 counterexample. A single streaming invocation that spans a handover
(two rounds, so two model streams are attached, each of which ends with its
own `finish` chunk) encoded with default options: the output carries two
finish-sentinel (`d:`) lines, not exactly one per invocation. -/
theorem finish_sentinel_counterexample :
    countFinishLines (toDataStream defaultDataStreamOptions (invocationFullStream
      [⟨⟨"u1", "queen"⟩,
        [⟨.textDelta "a", none⟩, ⟨.toolCall "c1" "transfer" [], none⟩,
         ⟨.stepFinish "tool-calls" 1 1 false, none⟩, ⟨.finish "tool-calls" 1 1, none⟩],
        "a", some ⟨"c1", "transfer", [], ⟨"u2", "specialist"⟩, ⟨"u1", "queen"⟩⟩⟩,
       ⟨⟨"u2", "specialist"⟩,
        [⟨.textDelta "b", none⟩, ⟨.stepFinish "stop" 1 1 false, none⟩,
         ⟨.finish "stop" 1 1, none⟩],
        "b", none⟩])) = 2 ∧ (2 : Nat) ≠ 1 := by
  constructor
  · decide
  · decide

/-- C8 amended. The finish-sentinel toggle behaves per finish chunk, not per
invocation: with the toggle disabled the encoded output contains zero
finish-sentinel lines; with it enabled (or at its default) the output
contains exactly one finish-sentinel line per `finish` chunk of the
fully-annotated stream — one per attached model stream, hence one per round
of the invocation, so a multi-round invocation yields several. -/
theorem finish_sentinel_count (opts : SwarmToDataStreamOptions)
    (chunks : List TaggedEvent) :
    countFinishLines (toDataStream opts chunks)
      = if opts.experimental_sendFinish then countFinishEvents chunks else 0 := by
  have hstart :
      countFinishLines (if opts.experimental_sendStart then [⟨"2", jsonObj []⟩] else []) = 0 := by
    by_cases hs : opts.experimental_sendStart <;> simp [countFinishLines, hs]
  rw [toDataStream, countFinishLines_append, hstart, countFinishLines_filterMap]
  omega
